import Mathlib

/-! Verification of the token-budgeted conversation memory manager
(`ConversationManager` and `TokenCounter`) of the ai-gateway CLI.

The TypeScript sources are shallowly embedded: the filesystem directory of
conversation records becomes an association list from file stem to record;
`Date.now()` readings become explicit `Nat` parameters; a `try`/`catch`
block becomes an `Except Unit` body plus a catch-translation; the external
tiktoken encoder becomes an abstract token-count function parameter. -/

namespace AiGatewayCli

/-- Message role, the union type `'system' | 'user' | 'assistant'` from
src/types.ts. -/
inductive Role where
  | system
  | user
  | assistant
deriving DecidableEq

/-- Type `Message` from src/types.ts.  `timestamp` and `tokens` are optional
fields; an absent JSON key is `none`.  Timestamps (`Date.now()` millisecond
counts) and token counts are modelled as `Nat`. -/
structure Message where
  role : Role
  content : String
  timestamp : Option Nat
  tokens : Option Nat
deriving DecidableEq

/-- Type `Conversation` from src/types.ts. -/
structure Conversation where
  id : String
  name : String
  model : String
  messages : List Message
  totalTokens : Nat
  createdAt : Nat
  updatedAt : Nat
deriving DecidableEq

/-- Type `ConversationSummary` from src/types.ts. -/
structure ConversationSummary where
  id : String
  name : String
  model : String
  messageCount : Nat
  totalTokens : Nat
  createdAt : Nat
  updatedAt : Nat
deriving DecidableEq

/-- One stored `.json` file: it either parses back to a `Conversation`
(`valid`) or exists but fails to parse (`corrupt`), in which case
`fs.readJSON` throws. -/
inductive Record where
  | valid (c : Conversation)
  | corrupt
deriving DecidableEq

/-- The conversation storage directory: file stems (derived from the
conversation id by `getConversationPath`) paired with the record each file
holds, in directory order. -/
abbrev Store := List (String × Record)

/-- Filesystem probe used by `existsSync` + `readJSON`: the record stored
under `id`, if a file for it exists. -/
def lookupRec (st : Store) (id : String) : Option Record :=
  (st.find? (fun p => p.1 == id)).map (fun p => p.2)

/-- Method `ConversationManager.save`: `fs.writeJSON` replaces the whole file for
`conversation.id`, creating it when absent. -/
def save : Store → Conversation → Store
  | [], c => [(c.id, Record.valid c)]
  | (k, r) :: rest, c =>
    if k == c.id then (k, Record.valid c) :: rest
    else (k, r) :: save rest c

/-- The body of `ConversationManager.load`'s try block.  `fault` injects a
storage-layer I/O failure (`fs.readJSON` rejecting); a record that exists
but fails to parse also makes `fs.readJSON` throw.  `Except.ok none` is the
explicit `return null` taken when no file exists. -/
def loadBody (st : Store) (fault : Bool) (id : String) :
    Except Unit (Option Conversation) :=
  if fault then Except.error () else
    match lookupRec st id with
    | none => Except.ok none
    | some (Record.valid c) => Except.ok (some c)
    | some Record.corrupt => Except.error ()

/-- Method `ConversationManager.load`: the catch block logs the error and returns
`null`. -/
def load (st : Store) (fault : Bool) (id : String) : Option Conversation :=
  match loadBody st fault id with
  | Except.ok v => v
  | Except.error _ => none

/-- The body of `ConversationManager.delete`'s try block: if the file
exists, remove it and return `true`; otherwise return `false`. -/
def deleteBody (st : Store) (fault : Bool) (id : String) :
    Except Unit (Bool × Store) :=
  if fault then Except.error () else
    match lookupRec st id with
    | some _ => Except.ok (true, st.eraseP (fun p => p.1 == id))
    | none => Except.ok (false, st)

/-- Method `ConversationManager.delete`: the catch block logs the error and
returns `false`, leaving the store as it was. -/
def delete (st : Store) (fault : Bool) (id : String) : Bool × Store :=
  match deleteBody st fault id with
  | Except.ok v => v
  | Except.error _ => (false, st)

/-- The summary object built for each file inside
`ConversationManager.list`. -/
def mkSummary (c : Conversation) : ConversationSummary :=
  { id := c.id
    name := c.name
    model := c.model
    messageCount := c.messages.length
    totalTokens := c.totalTokens
    createdAt := c.createdAt
    updatedAt := c.updatedAt }

/-- The comparator `(a, b) => b.updatedAt - a.updatedAt` passed to
`Array.prototype.sort`: `updatedAt` descending. -/
def updatedDesc (a b : ConversationSummary) : Prop :=
  b.updatedAt ≤ a.updatedAt

instance : DecidableRel updatedDesc := fun a b => Nat.decLe b.updatedAt a.updatedAt

instance : IsTotal ConversationSummary updatedDesc :=
  ⟨fun a b => Nat.le_total b.updatedAt a.updatedAt⟩

instance : IsTrans ConversationSummary updatedDesc :=
  ⟨fun _ _ _ h1 h2 => Nat.le_trans h2 h1⟩

/-- The read loop of `ConversationManager.list`: each `.json` file is read
with `fs.readJSON` in directory order; a corrupt record makes the read
throw, aborting the whole loop. -/
def collectSummaries : Store → Except Unit (List ConversationSummary)
  | [] => Except.ok []
  | (_, Record.corrupt) :: _ => Except.error ()
  | (_, Record.valid c) :: rest =>
    match collectSummaries rest with
    | Except.ok l => Except.ok (mkSummary c :: l)
    | Except.error e => Except.error e

/-- Method `ConversationManager.list`: collect one summary per file, sort by
`updatedAt` descending; the catch block logs the error and returns the
empty array. -/
def list (st : Store) (fault : Bool) : List ConversationSummary :=
  match (if fault then Except.error () else collectSummaries st :
      Except Unit (List ConversationSummary)) with
  | Except.ok l => List.insertionSort updatedDesc l
  | Except.error _ => []

/-- Method `ConversationManager.create`: `id` stands for the result of
`generateId()` and `now` for `Date.now()`.  A system prompt becomes a
position-0 system message carrying no `tokens` field; `totalTokens` starts
at 0; the fresh record is saved before being returned. -/
def create (st : Store) (id name model : String) (systemPrompt : Option String)
    (now : Nat) : Conversation × Store :=
  let messages : List Message :=
    match systemPrompt with
    | some sp => [{ role := Role.system, content := sp, timestamp := some now, tokens := none }]
    | none => []
  let c : Conversation :=
    { id := id
      name := name
      model := model
      messages := messages
      totalTokens := 0
      createdAt := now
      updatedAt := now }
  (c, save st c)

/-- Method `ConversationManager.addMessage`.  `t1` and `t2` are the two successive
`Date.now()` readings of one append call.  The caller's `message.timestamp`
is overwritten with `t1`; `totalTokens` grows by `message.tokens || 0`;
`updatedAt` becomes `t2`; the updated record is saved.  Returns `none`
exactly when `load` returned `null`. -/
def addMessage (st : Store) (fault : Bool) (id : String) (m : Message)
    (t1 t2 : Nat) : Option (Conversation × Store) :=
  match load st fault id with
  | none => none
  | some c =>
    let m2 : Message := { m with timestamp := some t1 }
    let c2 : Conversation :=
      { c with
          messages := c.messages ++ [m2]
          totalTokens := c.totalTokens + m.tokens.getD 0
          updatedAt := t2 }
    some (c2, save st c2)

/-- A sequence of appends to one conversation id; each element carries the
appended message and the two clock readings of that call.  A failed append
(conversation not loadable) commits nothing. -/
def runAppends (st : Store) (id : String) : List (Message × Nat × Nat) → Store
  | [] => st
  | (m, t1, t2) :: rest =>
    match addMessage st false id m t1 t2 with
    | some (_, st2) => runAppends st2 id rest
    | none => st

/-- The section-3 token invariant: `totalTokens` equals the sum of the
`tokens` fields over all stored messages, an absent field counting 0
(matching the code's `message.tokens || 0`). -/
def tokensInvariant (c : Conversation) : Prop :=
  c.totalTokens = (c.messages.map (fun m => m.tokens.getD 0)).sum

/-- Saving a conversation makes it the record found under its id. -/
theorem lookupRec_save (st : Store) (c : Conversation) :
    lookupRec (save st c) c.id = some (Record.valid c) := by
  induction st with
  | nil => simp [save, lookupRec]
  | cons p rest ih =>
    obtain ⟨k, r⟩ := p
    by_cases h : k == c.id
    · simp [save, h, lookupRec, List.find?]
    · simp only [save, h, if_false, Bool.false_eq_true]
      simpa [lookupRec, List.find?, h] using ih

/-- Loading after saving succeeds with the saved conversation. -/
theorem load_save (st : Store) (c : Conversation) :
    load (save st c) false c.id = some c := by
  simp [load, loadBody, lookupRec_save st c]

/-- One committed append: starting from a loadable conversation whose `id`
field matches its key, `addMessage` commits the updated conversation and
preserves loadability, the key match, and the token invariant. -/
theorem addMessage_step (st : Store) (id : String) (m : Message) (t1 t2 : Nat)
    (c : Conversation) (hload : load st false id = some c) (hid : c.id = id)
    (hinv : tokensInvariant c) :
    ∃ c2 : Conversation,
      addMessage st false id m t1 t2 = some (c2, save st c2) ∧
      load (save st c2) false id = some c2 ∧ c2.id = id ∧ tokensInvariant c2 := by
  refine ⟨{ c with
      messages := c.messages ++ [{ m with timestamp := some t1 }]
      totalTokens := c.totalTokens + m.tokens.getD 0
      updatedAt := t2 }, ?_, ?_, hid, ?_⟩
  · simp [addMessage, hload]
  · have := load_save st { c with
      messages := c.messages ++ [{ m with timestamp := some t1 }]
      totalTokens := c.totalTokens + m.tokens.getD 0
      updatedAt := t2 }
    simpa [hid] using this
  · simp only [tokensInvariant] at hinv ⊢
    simp [hinv]

/-- Running a sequence of appends keeps the conversation loadable, keyed by
its id, and keeps the token invariant. -/
theorem runAppends_inv (id : String) (appends : List (Message × Nat × Nat)) :
    ∀ st (c : Conversation), load st false id = some c → c.id = id →
      tokensInvariant c →
      ∃ c2, load (runAppends st id appends) false id = some c2 ∧
        c2.id = id ∧ tokensInvariant c2 := by
  induction appends with
  | nil => exact fun st c hload hid hinv => ⟨c, hload, hid, hinv⟩
  | cons a rest ih =>
    rintro st c hload hid hinv
    obtain ⟨m, t1, t2⟩ := a
    obtain ⟨c2, hadd, hload2, hid2, hinv2⟩ :=
      addMessage_step st id m t1 t2 c hload hid hinv
    have hrun : runAppends st id ((m, t1, t2) :: rest) =
        runAppends (save st c2) id rest := by
      simp [runAppends, hadd]
    rw [hrun]
    exact ih (save st c2) c2 hload2 hid2 hinv2

/-- C1: for every freshly created conversation (with or without a system
prompt) and every sequence of committed appends through `addMessage`, after
each append the stored conversation's `totalTokens` equals the sum of the
`tokens` fields of its messages (an absent field counting 0, as in the
code's `message.tokens || 0`). -/
theorem totalTokens_invariant_after_appends (st : Store)
    (id name model : String) (systemPrompt : Option String) (now : Nat)
    (appends : List (Message × Nat × Nat)) (k : Nat) :
    ∃ c, load (runAppends (create st id name model systemPrompt now).2 id
        (appends.take k)) false id = some c ∧ tokensInvariant c := by
  obtain ⟨c2, hload, _, hinv⟩ :=
    runAppends_inv id (appends.take k)
      (create st id name model systemPrompt now).2
      (create st id name model systemPrompt now).1
      (by simpa [create] using
        load_save st (create st id name model systemPrompt now).1)
      (by simp [create])
      (by cases systemPrompt <;> simp [create, tokensInvariant])
  exact ⟨c2, hload, hinv⟩

/-- C6: save/load round-trip — loading a conversation right after saving it
yields a conversation field-for-field equal to the one saved, messages
(role, content, timestamp, token count) included. -/
theorem load_save_roundtrip (st : Store) (c : Conversation) :
    load (save st c) false c.id = some c :=
  load_save st c

/-- C5 counterexample: a record that exists but fails to parse produces
exactly the same result (`null`) as a record that does not exist, so the
load-failure outcome is not distinguishable from "not found". -/
theorem load_corrupt_indistinguishable_from_absent :
    load [("conv_a", Record.corrupt)] false "conv_a" =
      load ([] : Store) false "conv_a" := by
  decide

/-- C5 amended: `load` returns the conversation when a valid record exists
and `null` when no record exists, but a record that fails to parse also
comes back as `null` — corruption is only logged, not distinguished from
absence in the returned value. -/
theorem load_cases (st : Store) (id : String) :
    (lookupRec st id = none → load st false id = none) ∧
    (∀ c, lookupRec st id = some (Record.valid c) → load st false id = some c) ∧
    (lookupRec st id = some Record.corrupt → load st false id = none) := by
  refine ⟨fun h => ?_, fun c h => ?_, fun h => ?_⟩ <;> simp [load, loadBody, h]

/-- A concrete stored conversation used in counterexamples and witnesses. -/
def convA : Conversation :=
  { id := "a", name := "n", model := "m", messages := [], totalTokens := 0,
    createdAt := 0, updatedAt := 0 }

/-- C5 witness: the three cases of `load_cases` at concrete stores. -/
theorem load_cases_witness :
    load ([] : Store) false "a" = none ∧
    load [("a", Record.valid convA)] false "a" = some convA ∧
    load [("a", Record.corrupt)] false "a" = none :=
  ⟨(load_cases [] "a").1 (by decide),
   (load_cases [("a", Record.valid convA)] "a").2.1 convA (by decide),
   (load_cases [("a", Record.corrupt)] "a").2.2 (by decide)⟩

/-- C9 counterexample: with an I/O failure injected, `load`, `delete` and
`list` on a store that holds a valid record return `null`, `false` and the
empty list — bitwise identical to their success results on an empty store,
so the failure is swallowed, not propagated. -/
theorem io_errors_swallowed :
    load [("a", Record.valid convA)] true "a" = load ([] : Store) false "a" ∧
    (delete [("a", Record.valid convA)] true "a").1 =
      (delete ([] : Store) false "a").1 ∧
    list [("a", Record.valid convA)] true = list ([] : Store) false := by
  decide

/-- C9 amended: a storage-layer I/O failure in `load`, `delete` or `list`
is caught and converted into the success-shaped defaults `null`, `false`
and the empty list; it never propagates to the caller. -/
theorem io_errors_become_defaults (st : Store) (id : String) :
    load st true id = none ∧ (delete st true id).1 = false ∧
      list st true = [] := by
  refine ⟨?_, ?_, ?_⟩ <;> simp [load, loadBody, delete, deleteBody, list]

/-- C10: a committed append stores the message with its `timestamp`
overwritten by the append-time clock reading `t1` (whatever the caller had
set), sets `updatedAt` to the same call's second reading `t2`, appends at
the end, and leaves every previously stored message unchanged. -/
theorem addMessage_stamps_and_appends (st : Store) (id : String)
    (m : Message) (t1 t2 : Nat) (c : Conversation)
    (hload : load st false id = some c) :
    ∃ c2 st2, addMessage st false id m t1 t2 = some (c2, st2) ∧
      c2.messages.getLast? = some { m with timestamp := some t1 } ∧
      c2.updatedAt = t2 ∧
      c2.messages.take c.messages.length = c.messages ∧
      c2.messages.length = c.messages.length + 1 := by
  refine ⟨{ c with
      messages := c.messages ++ [{ m with timestamp := some t1 }]
      totalTokens := c.totalTokens + m.tokens.getD 0
      updatedAt := t2 },
    save st { c with
      messages := c.messages ++ [{ m with timestamp := some t1 }]
      totalTokens := c.totalTokens + m.tokens.getD 0
      updatedAt := t2 }, ?_, ?_, rfl, ?_, ?_⟩
  · simp [addMessage, hload]
  · simp
  · simp
  · simp

/-- A message carrying a stale caller-set timestamp, used as append input. -/
def msgStale : Message :=
  { role := Role.user, content := "hi", timestamp := some 999,
    tokens := some 7 }

/-- Message `msgStale` as `addMessage` stores it when the first clock reading is 5. -/
def msgStamped : Message :=
  { role := Role.user, content := "hi", timestamp := some 5,
    tokens := some 7 }

/-- C10 witness: appending a message that carries a stale caller-set
timestamp to a concrete stored conversation. -/
theorem addMessage_stamps_witness :
    load [("a", Record.valid convA)] false "a" = some convA ∧
    ∃ c2 st2,
      addMessage [("a", Record.valid convA)] false "a" msgStale 5 6 =
        some (c2, st2) ∧
      c2.messages.getLast? = some msgStamped ∧
      c2.updatedAt = 6 ∧
      c2.messages.take convA.messages.length = convA.messages ∧
      c2.messages.length = convA.messages.length + 1 :=
  ⟨by decide,
   addMessage_stamps_and_appends [("a", Record.valid convA)] "a"
     msgStale 5 6 convA (by decide)⟩

/-! TokenCounter (src/token-counter.ts).  `tc : String → Nat` stands for
the tiktoken encoder held by the instance (`this.encoding.encode(text)`,
an external native object), i.e. for `countTokens`. -/

/-- The catch-branch fallback of `TokenCounter.countTokens`:
`Math.ceil(text.length / 4)`. -/
def heuristicCount (s : String) : Nat := (s.length + 3) / 4

/-- Method `TokenCounter.countMessageTokens`: 4 tokens of per-message role
overhead plus the content's count. -/
def countMessageTokens (tc : String → Nat) (m : Message) : Nat :=
  4 + tc m.content

/-- Method `TokenCounter.countMessagesTokens`: running sum of per-message counts
plus 3 priming tokens for the reply prefix. -/
def countMessagesTokens (tc : String → Nat) (ms : List Message) : Nat :=
  (ms.foldl (fun total m => total + countMessageTokens tc m) 0) + 3

/-- The backward loop of `TokenCounter.trimMessages`: walk the non-system
messages most-recent first, taking each message whose addition keeps the
running total within `maxTokens`, and stop permanently at the first one
that does not fit (`break`).  Returns the accepted messages most-recent
first. -/
def fillRecent (tc : String → Nat) (maxTokens : Nat) (current : Nat) :
    List Message → List Message
  | [] => []
  | m :: rest =>
    if current + countMessageTokens tc m ≤ maxTokens then
      m :: fillRecent tc maxTokens (current + countMessageTokens tc m) rest
    else []

/-- Method `TokenCounter.trimMessages`: keep every system message (the splice at
index `systemMessages.length` puts each accepted non-system message after
the system block, so accepted messages end up in original order after it). -/
def trimMessages (tc : String → Nat) (ms : List Message) (maxTokens : Nat) :
    List Message :=
  let systemMessages := ms.filter (fun m => m.role == Role.system)
  let nonSystemMessages := ms.filter (fun m => m.role != Role.system)
  systemMessages ++
    (fillRecent tc maxTokens (countMessagesTokens tc systemMessages)
      nonSystemMessages.reverse).reverse

/-- The fold in `countMessagesTokens` is the sum of the mapped counts. -/
theorem countMessagesTokens_eq (tc : String → Nat) (ms : List Message) :
    countMessagesTokens tc ms = (ms.map (countMessageTokens tc)).sum + 3 := by
  have h : ∀ (l : List Message) (a : Nat),
      l.foldl (fun total m => total + countMessageTokens tc m) a =
        a + (l.map (countMessageTokens tc)).sum := by
    intro l
    induction l with
    | nil => simp
    | cons x xs ih => intro a; simp [ih, Nat.add_assoc]
  simp [countMessagesTokens, h]

/-- The loop output is a prefix of its input: once a message is rejected,
everything older is dropped too. -/
theorem fillRecent_prefix_decomp (tc : String → Nat) (b : Nat) :
    ∀ (l : List Message) (cur : Nat),
      ∃ t, fillRecent tc b cur l ++ t = l := by
  intro l
  induction l with
  | nil => exact fun cur => ⟨[], rfl⟩
  | cons m rest ih =>
    intro cur
    by_cases h : cur + countMessageTokens tc m ≤ b
    · obtain ⟨t, ht⟩ := ih (cur + countMessageTokens tc m)
      exact ⟨t, by simp [fillRecent, h, ht]⟩
    · exact ⟨m :: rest, by simp [fillRecent, h]⟩

/-- The loop never lets the running total leave the budget. -/
theorem fillRecent_cost (tc : String → Nat) (b : Nat) :
    ∀ (l : List Message) (cur : Nat), cur ≤ b →
      cur + ((fillRecent tc b cur l).map (countMessageTokens tc)).sum ≤ b := by
  intro l
  induction l with
  | nil => intro cur h; simpa [fillRecent] using h
  | cons m rest ih =>
    intro cur h
    by_cases hfit : cur + countMessageTokens tc m ≤ b
    · have := ih (cur + countMessageTokens tc m) hfit
      simp only [fillRecent, hfit, if_true, List.map_cons, List.sum_cons]
      omega
    · simpa [fillRecent, hfit] using h

/-- When the running total already exceeds the budget, the loop takes
nothing. -/
theorem fillRecent_nil_of_over (tc : String → Nat) (b cur : Nat)
    (h : b < cur) : ∀ l, fillRecent tc b cur l = [] := by
  intro l
  cases l with
  | nil => rfl
  | cons m rest =>
    have hfit : ¬ (cur + countMessageTokens tc m ≤ b) := by omega
    simp [fillRecent, hfit]

/-- A larger budget never makes the loop accept fewer messages. -/
theorem fillRecent_length_mono (tc : String → Nat) (b1 b2 : Nat)
    (hb : b1 ≤ b2) :
    ∀ (l : List Message) (cur : Nat),
      (fillRecent tc b1 cur l).length ≤ (fillRecent tc b2 cur l).length := by
  intro l
  induction l with
  | nil => intro cur; simp [fillRecent]
  | cons m rest ih =>
    intro cur
    by_cases h1 : cur + countMessageTokens tc m ≤ b1
    · have h2 : cur + countMessageTokens tc m ≤ b2 := Nat.le_trans h1 hb
      simpa [fillRecent, h1, h2] using ih (cur + countMessageTokens tc m)
    · simp [fillRecent, h1]

/-- The stored layout of section 3: every system message precedes every
non-system message (there is at most one system message and it sits at
position 0, so this holds for every conversation the store produces). -/
def systemFirst (ms : List Message) : Prop :=
  ∃ s r, ms = s ++ r ∧ (∀ m ∈ s, m.role = Role.system) ∧
    (∀ m ∈ r, m.role ≠ Role.system)

/-- Filtering a system-first list splits it back into its two blocks. -/
theorem filter_decomp (s r : List Message)
    (hs : ∀ m ∈ s, m.role = Role.system)
    (hr : ∀ m ∈ r, m.role ≠ Role.system) :
    (s ++ r).filter (fun m => m.role == Role.system) = s ∧
    (s ++ r).filter (fun m => m.role != Role.system) = r := by
  constructor
  · rw [List.filter_append]
    have h1 : s.filter (fun m => m.role == Role.system) = s :=
      List.filter_eq_self.mpr (fun m hm => by simp [hs m hm])
    have h2 : r.filter (fun m => m.role == Role.system) = [] :=
      List.filter_eq_nil_iff.mpr (fun m hm => by simp [hr m hm])
    simp [h1, h2]
  · rw [List.filter_append]
    have h1 : s.filter (fun m => m.role != Role.system) = [] :=
      List.filter_eq_nil_iff.mpr (fun m hm => by simp [hs m hm])
    have h2 : r.filter (fun m => m.role != Role.system) = r :=
      List.filter_eq_self.mpr (fun m hm => by simp [hr m hm])
    simp [h1, h2]

/-- Stated from the spec's words (section 4.2): the anchor set is the system
messages plus the single most recent message (when that is not itself a
system message).  Used only to state what the claims demand of
`trimMessages`. -/
def anchorsSpec (ms : List Message) : List Message :=
  ms.filter (fun m => m.role == Role.system) ++
    (match ms.getLast? with
     | some m => if m.role == Role.system then [] else [m]
     | none => [])

/-- A non-system message with empty content, used in counterexamples. -/
def mUserE : Message :=
  { role := Role.user, content := "", timestamp := none, tokens := none }

/-- A concrete system message. -/
def mSys : Message :=
  { role := Role.system, content := "sys", timestamp := none, tokens := none }

/-- A concrete user message. -/
def mUserB : Message :=
  { role := Role.user, content := "hello", timestamp := none, tokens := none }

/-- A concrete system-first message list. -/
def msW : List Message := [mSys, mUserB]

/-- C2 counterexample: on a single user message with budget 0, the result
is empty, yet its cost (the 3 priming tokens) exceeds the budget while the
anchor set (exactly that message) is not what is returned — the claimed
"within budget unless exactly the anchors are returned" disjunction fails. -/
theorem trim_budget_claim_fails :
    ¬ (countMessagesTokens heuristicCount
        (trimMessages heuristicCount [mUserE] 0) ≤ 0 ∨
       trimMessages heuristicCount [mUserE] 0 = anchorsSpec [mUserE]) := by
  decide

/-- C2 amended: for system-first inputs (the stored layout), `trimMessages`
returns an order-preserving subsequence; its `countMessagesTokens` cost
stays within the budget whenever the system messages alone fit; and when
the system messages alone exceed the budget, exactly the system messages
are returned (the most recent message is not additionally retained). -/
theorem trim_subsequence_and_budget (tc : String → Nat) (ms : List Message)
    (b : Nat) (h : systemFirst ms) :
    List.Sublist (trimMessages tc ms b) ms ∧
    (countMessagesTokens tc (ms.filter (fun m => m.role == Role.system)) ≤ b →
      countMessagesTokens tc (trimMessages tc ms b) ≤ b) ∧
    (b < countMessagesTokens tc (ms.filter (fun m => m.role == Role.system)) →
      trimMessages tc ms b = ms.filter (fun m => m.role == Role.system)) := by
  obtain ⟨s, r, rfl, hs, hr⟩ := h
  obtain ⟨hfs, hfr⟩ := filter_decomp s r hs hr
  have htrim : trimMessages tc (s ++ r) b =
      s ++ (fillRecent tc b (countMessagesTokens tc s) r.reverse).reverse := by
    simp only [trimMessages, hfs, hfr]
  refine ⟨?_, ?_, ?_⟩
  · rw [htrim]
    obtain ⟨t, ht⟩ :=
      fillRecent_prefix_decomp tc b r.reverse (countMessagesTokens tc s)
    have hsuf : t.reverse ++
        (fillRecent tc b (countMessagesTokens tc s) r.reverse).reverse = r := by
      have h2 := congrArg List.reverse ht
      simpa [List.reverse_append] using h2
    exact List.Sublist.append (List.Sublist.refl s)
      (List.IsSuffix.sublist ⟨t.reverse, hsuf⟩)
  · intro hb
    rw [hfs] at hb
    rw [htrim, countMessagesTokens_eq]
    have hcost :=
      fillRecent_cost tc b r.reverse (countMessagesTokens tc s) hb
    have hc0 : countMessagesTokens tc s =
        (s.map (countMessageTokens tc)).sum + 3 := countMessagesTokens_eq tc s
    rw [List.map_append, List.sum_append, List.map_reverse, List.sum_reverse]
    omega
  · intro hover
    rw [hfs] at hover
    rw [htrim, fillRecent_nil_of_over tc b (countMessagesTokens tc s) hover]
    simp [hfs]

/-- C2 witness: a system prompt plus one user message under a roomy budget. -/
theorem trim_subsequence_and_budget_witness :
    systemFirst msW ∧
    List.Sublist (trimMessages heuristicCount msW 100) msW ∧
    countMessagesTokens heuristicCount
      (trimMessages heuristicCount msW 100) ≤ 100 :=
  have h : systemFirst msW := ⟨[mSys], [mUserB], rfl, by decide, by decide⟩
  ⟨h, (trim_subsequence_and_budget heuristicCount msW 100 h).1,
   (trim_subsequence_and_budget heuristicCount msW 100 h).2.1 (by decide)⟩

/-- C3 counterexample: the most recent message is dropped when adding it
would exceed the budget, so it is not always retained. -/
theorem most_recent_not_retained :
    mUserE ∉ trimMessages heuristicCount [mUserE] 0 := by
  decide

/-- C3 amended: `trimMessages` always keeps every system message, but the
most recent message is kept only when it is itself a system message or when
the system block's cost plus its own cost fits within the budget. -/
theorem trim_keeps_system_and_conditional_last (tc : String → Nat)
    (ms : List Message) (b : Nat) (h : ms ≠ []) :
    (∀ m ∈ ms, m.role = Role.system → m ∈ trimMessages tc ms b) ∧
    (ms.getLast h ∈ trimMessages tc ms b ↔
      ((ms.getLast h).role = Role.system ∨
        countMessagesTokens tc (ms.filter (fun m => m.role == Role.system)) +
          countMessageTokens tc (ms.getLast h) ≤ b)) := by
  constructor
  · intro m hm hrole
    have hmf : m ∈ ms.filter (fun m => m.role == Role.system) :=
      List.mem_filter.mpr ⟨hm, by simp [hrole]⟩
    simp only [trimMessages]
    exact List.mem_append_left _ hmf
  · by_cases hL : (ms.getLast h).role = Role.system
    · have hmf : ms.getLast h ∈ ms.filter (fun m => m.role == Role.system) :=
        List.mem_filter.mpr ⟨List.getLast_mem h, by simp [hL]⟩
      have hmem : ms.getLast h ∈ trimMessages tc ms b := by
        simp only [trimMessages]
        exact List.mem_append_left _ hmf
      exact iff_of_true hmem (Or.inl hL)
    · have hQL : ((ms.getLast h).role != Role.system) = true := by simp [hL]
      have hrev : (ms.filter (fun m => m.role != Role.system)).reverse =
          ms.getLast h ::
            (ms.dropLast.filter (fun m => m.role != Role.system)).reverse := by
        conv_lhs => rw [← List.dropLast_append_getLast h]
        rw [List.filter_append]
        simp [hQL]
      by_cases hfit :
          countMessagesTokens tc (ms.filter (fun m => m.role == Role.system)) +
            countMessageTokens tc (ms.getLast h) ≤ b
      · have hmem : ms.getLast h ∈ trimMessages tc ms b := by
          simp only [trimMessages]
          refine List.mem_append_right _ ?_
          rw [hrev]
          simp [fillRecent, hfit]
        exact iff_of_true hmem (Or.inr hfit)
      · have hnot : ms.getLast h ∉ trimMessages tc ms b := by
          simp only [trimMessages]
          rw [hrev]
          simp only [fillRecent, hfit, if_false]
          intro hmem
          rcases List.mem_append.mp hmem with hin | hin
          · exact hL (by simpa using (List.mem_filter.mp hin).2)
          · simp at hin
        refine iff_of_false hnot ?_
        rintro (h1 | h2)
        · exact hL h1
        · exact hfit h2

/-- C3 witness: the system-message half of the amended claim at a concrete
two-message conversation. -/
theorem trim_keeps_system_witness :
    msW ≠ [] ∧
    (∀ m ∈ msW, m.role = Role.system →
      m ∈ trimMessages heuristicCount msW 100) :=
  ⟨by decide,
   (trim_keeps_system_and_conditional_last heuristicCount msW 100
     (by decide)).1⟩

/-- C7: holding the messages fixed, a larger budget never yields fewer
selected messages. -/
theorem trim_length_monotone (tc : String → Nat) (ms : List Message)
    (b1 b2 : Nat) (hb : b1 ≤ b2) :
    (trimMessages tc ms b1).length ≤ (trimMessages tc ms b2).length := by
  simp only [trimMessages, List.length_append, List.length_reverse]
  exact Nat.add_le_add_left (fillRecent_length_mono tc b1 b2 hb _ _) _

/-- C7 witness: budgets 0 and 100 on a concrete conversation. -/
theorem trim_length_monotone_witness :
    (0 : Nat) ≤ 100 ∧
    (trimMessages heuristicCount msW 0).length ≤
      (trimMessages heuristicCount msW 100).length :=
  ⟨Nat.zero_le 100,
   trim_length_monotone heuristicCount msW 0 100 (Nat.zero_le 100)⟩

/-- JS `String.prototype.includes` on the underlying character lists:
does `pat` occur contiguously inside the list. -/
def hasSubList (pat : List Char) : List Char → Bool
  | [] => List.isPrefixOf pat []
  | c :: rest => List.isPrefixOf pat (c :: rest) || hasSubList pat rest

/-- Call `model.includes(pat)` as used by `getModelContextLimit`. -/
def strIncludes (s pat : String) : Bool := hasSubList pat.data s.data

/-- Method `TokenCounter.getModelContextLimit`: the substring dispatch chain, in
source order, with the 8k default for unmatched names. -/
def getModelContextLimit (model : String) : Nat :=
  if strIncludes model "gpt-4-turbo" || strIncludes model "gpt-4-1106" then 128000
  else if strIncludes model "gpt-4-32k" then 32768
  else if strIncludes model "gpt-4" then 8192
  else if strIncludes model "gpt-3.5-turbo-16k" then 16384
  else if strIncludes model "gpt-3.5" then 4096
  else if strIncludes model "claude-3" then 200000
  else if strIncludes model "claude-2" then 100000
  else if strIncludes model "deepseek" then 32768
  else if strIncludes model "gemini" then 32768
  else 8192

/-- Every substring pattern consulted by `getModelContextLimit`. -/
def contextPatterns : List String :=
  ["gpt-4-turbo", "gpt-4-1106", "gpt-4-32k", "gpt-4",
   "gpt-3.5-turbo-16k", "gpt-3.5", "claude-3", "claude-2",
   "deepseek", "gemini"]

/-- Function `hasSubList` decides contiguous containment. -/
theorem hasSubList_iff (pat : List Char) :
    ∀ hay, hasSubList pat hay = true ↔ List.IsInfix pat hay := by
  intro hay
  induction hay with
  | nil => simp [hasSubList]
  | cons c rest ih => simp [hasSubList, ih, List.infix_cons_iff]

/-- Substring containment is transitive through an intermediate string. -/
theorem strIncludes_trans {s q p : String} (h1 : strIncludes s q = true)
    (h2 : strIncludes q p = true) : strIncludes s p = true := by
  unfold strIncludes at h1 h2 ⊢
  rw [hasSubList_iff] at h1 h2 ⊢
  exact h2.trans h1

/-- C8: the dispatch chain realises most-specific-pattern-wins — a name
containing the sub-size pattern `gpt-4-32k` (and no other, even more
specific gpt-4 sub-size pattern) resolves to 32768 rather than the `gpt-4`
family figure; a name containing `gpt-3.5-turbo-16k` (and no pattern of the
gpt-4 family) resolves to 16384 rather than the `gpt-3.5` family figure;
and a name matching no pattern at all gets the conservative 8192 default. -/
theorem context_limit_most_specific (s : String) :
    (strIncludes s "gpt-4-32k" = true → strIncludes s "gpt-4-turbo" = false →
      strIncludes s "gpt-4-1106" = false → getModelContextLimit s = 32768) ∧
    (strIncludes s "gpt-3.5-turbo-16k" = true →
      strIncludes s "gpt-4" = false → getModelContextLimit s = 16384) ∧
    ((∀ p ∈ contextPatterns, strIncludes s p = false) →
      getModelContextLimit s = 8192) := by
  refine ⟨fun h32 hturbo h1106 => ?_, fun h16 h4 => ?_, fun hall => ?_⟩
  · simp [getModelContextLimit, hturbo, h1106, h32]
  · have hturbo : strIncludes s "gpt-4-turbo" = false := by
      cases hc : strIncludes s "gpt-4-turbo"
      · rfl
      · exact absurd (strIncludes_trans hc
          (show strIncludes "gpt-4-turbo" "gpt-4" = true by decide))
          (by simp [h4])
    have h1106 : strIncludes s "gpt-4-1106" = false := by
      cases hc : strIncludes s "gpt-4-1106"
      · rfl
      · exact absurd (strIncludes_trans hc
          (show strIncludes "gpt-4-1106" "gpt-4" = true by decide))
          (by simp [h4])
    have h32k : strIncludes s "gpt-4-32k" = false := by
      cases hc : strIncludes s "gpt-4-32k"
      · rfl
      · exact absurd (strIncludes_trans hc
          (show strIncludes "gpt-4-32k" "gpt-4" = true by decide))
          (by simp [h4])
    simp [getModelContextLimit, hturbo, h1106, h32k, h4, h16]
  · have h1 := hall "gpt-4-turbo" (by decide)
    have h2 := hall "gpt-4-1106" (by decide)
    have h3 := hall "gpt-4-32k" (by decide)
    have h4 := hall "gpt-4" (by decide)
    have h5 := hall "gpt-3.5-turbo-16k" (by decide)
    have h6 := hall "gpt-3.5" (by decide)
    have h7 := hall "claude-3" (by decide)
    have h8 := hall "claude-2" (by decide)
    have h9 := hall "deepseek" (by decide)
    have h10 := hall "gemini" (by decide)
    simp [getModelContextLimit, h1, h2, h3, h4, h5, h6, h7, h8, h9, h10]

/-- C8 witness: a 32k variant, a 16k variant and an unknown model name. -/
theorem context_limit_witness :
    getModelContextLimit "gpt-4-32k-0613" = 32768 ∧
    getModelContextLimit "gpt-3.5-turbo-16k" = 16384 ∧
    getModelContextLimit "mistral-large" = 8192 :=
  ⟨(context_limit_most_specific "gpt-4-32k-0613").1
     (by decide) (by decide) (by decide),
   (context_limit_most_specific "gpt-3.5-turbo-16k").2.1
     (by decide) (by decide),
   (context_limit_most_specific "mistral-large").2.2 (by decide)⟩

/-- The conversations of the records that parse, in directory order. -/
def validConvs (st : Store) : List Conversation :=
  st.filterMap (fun p =>
    match p.2 with
    | Record.valid c => some c
    | Record.corrupt => none)

/-- When every record parses, the read loop returns all summaries. -/
theorem collect_ok (st : Store) (h : ∀ r ∈ st, r.2 ≠ Record.corrupt) :
    collectSummaries st = Except.ok ((validConvs st).map mkSummary) := by
  induction st with
  | nil => simp [collectSummaries, validConvs]
  | cons p rest ih =>
    obtain ⟨k, r⟩ := p
    cases r with
    | corrupt =>
      exact absurd rfl (h (k, Record.corrupt) (List.mem_cons_self _ _))
    | valid c =>
      have hrest : ∀ q ∈ rest, q.2 ≠ Record.corrupt :=
        fun q hq => h q (List.mem_cons_of_mem _ hq)
      simp [collectSummaries, ih hrest, validConvs]

/-- Any corrupt record makes the read loop throw. -/
theorem collect_err (st : Store) (h : ∃ r ∈ st, r.2 = Record.corrupt) :
    collectSummaries st = Except.error () := by
  induction st with
  | nil => simp at h
  | cons p rest ih =>
    obtain ⟨k, r⟩ := p
    cases r with
    | corrupt => simp [collectSummaries]
    | valid c =>
      have hrest : ∃ q ∈ rest, q.2 = Record.corrupt := by
        obtain ⟨q, hq, he⟩ := h
        rcases List.mem_cons.mp hq with rfl | hq2
        · simp at he
        · exact ⟨q, hq2, he⟩
      simp [collectSummaries, ih hrest]

/-- A stored conversation most recently touched at time 20. -/
def convOne : Conversation :=
  { id := "one", name := "n1", model := "m", messages := [],
    totalTokens := 0, createdAt := 0, updatedAt := 20 }

/-- A stored conversation most recently touched at time 10. -/
def convTwo : Conversation :=
  { id := "two", name := "n2", model := "m", messages := [],
    totalTokens := 0, createdAt := 0, updatedAt := 10 }

/-- A store holding two valid records and one corrupt record. -/
def badStore : Store :=
  [("one", Record.valid convOne), ("bad", Record.corrupt),
   ("two", Record.valid convTwo)]

/-- A store holding two valid records, stored in ascending `updatedAt`
order so that listing must reorder them. -/
def goodStore : Store :=
  [("two", Record.valid convTwo), ("one", Record.valid convOne)]

/-- C4 counterexample: on a store with two valid records and one corrupt
record, `list` returns the empty list — the valid records are dropped along
with the corrupt one instead of still being listed. -/
theorem list_drops_valid_on_corrupt :
    list badStore false = [] ∧
    list badStore false ≠ [mkSummary convOne, mkSummary convTwo] := by
  decide

/-- C4 amended: when every stored record parses, `list` returns one summary
per record, sorted by `updatedAt` descending; but when any record fails to
parse, the caught error empties the entire listing — the valid records are
not returned. -/
theorem list_summaries_amended (st : Store) :
    ((∀ r ∈ st, r.2 ≠ Record.corrupt) →
      (list st false).Perm ((validConvs st).map mkSummary) ∧
      List.Sorted updatedDesc (list st false)) ∧
    ((∃ r ∈ st, r.2 = Record.corrupt) → list st false = []) := by
  constructor
  · intro h
    have hl : list st false =
        List.insertionSort updatedDesc ((validConvs st).map mkSummary) := by
      simp [list, collect_ok st h]
    rw [hl]
    exact ⟨List.perm_insertionSort updatedDesc _,
      List.sorted_insertionSort updatedDesc _⟩
  · intro h
    simp [list, collect_err st h]

/-- C4 witness: the amended claim at an all-valid store (stored in
ascending order, so the listing reorders) and at the corrupted store. -/
theorem list_summaries_amended_witness :
    (∀ r ∈ goodStore, r.2 ≠ Record.corrupt) ∧
    (list goodStore false).Perm ((validConvs goodStore).map mkSummary) ∧
    List.Sorted updatedDesc (list goodStore false) ∧
    (∃ r ∈ badStore, r.2 = Record.corrupt) ∧
    list badStore false = [] :=
  ⟨by decide,
   ((list_summaries_amended goodStore).1 (by decide)).1,
   ((list_summaries_amended goodStore).1 (by decide)).2,
   by decide,
   (list_summaries_amended badStore).2 (by decide)⟩

end AiGatewayCli
